import Mathlib

/-!
Shallow embedding of `crates/bevy_ecs/src/removal_detection.rs`.

The file under verification wires together three external collaborators:
the doubly-buffered event queue (`Events` / `EventCursor` from the event
module), the sparse associative container (`SparseSet`), and the system
parameter machinery.  Those collaborators are code of this repository that
is not present under `src/`, so they are modelled from the spec (each such
definition carries a `Modelled from the spec:` doc comment).  Everything in
`removal_detection.rs` itself (`RemovedComponentEvents`,
`RemovedComponents` and their methods) is translated directly from the
source.
-/

/-- Entity ids are abstract row identifiers; we embed them as naturals. -/
abbrev Entity := Nat

/-- Component (field type) ids are abstract stable map keys; embedded as naturals. -/
abbrev ComponentId := Nat

/-- Modelled from the spec: a removal record stored in a feed.  The payload
is the entity id (`RemovalEntry = {entity}`); every record additionally has
a monotonically increasing id unique within the feed. -/
structure RemovalEntry where
  id : Nat
  entity : Entity
deriving DecidableEq, Repr

/-- Modelled from the spec: the doubly-buffered feed primitive
(`Events<RemovedComponentEntity>`), external to the core.  Exactly two
generations are retained: `eventsA` is the previous generation, `eventsB`
the current one; `eventCount` is the id handed to the next appended
record. -/
structure Events where
  eventsA : List RemovalEntry
  eventsB : List RemovalEntry
  eventCount : Nat
deriving DecidableEq, Repr

/-- Modelled from the spec: a freshly created (default) feed is empty. -/
def Events.empty : Events := Events.mk [] [] 0

/-- Modelled from the spec: `append(record) -> id`; writes into the current
generation, assigning the next monotonically increasing id. -/
def Events.write (ev : Events) (e : Entity) : Events :=
  Events.mk ev.eventsA (ev.eventsB ++ [RemovalEntry.mk ev.eventCount e]) (ev.eventCount + 1)

/-- Modelled from the spec: `rotate_generations()`; the oldest generation is
dropped, the current generation becomes the previous one, and a new empty
current generation is opened. -/
def Events.update (ev : Events) : Events :=
  Events.mk ev.eventsB [] ev.eventCount

/-- All records a feed still retains, oldest first: the previous generation
followed by the current one. -/
def Events.retained (ev : Events) : List RemovalEntry :=
  ev.eventsA ++ ev.eventsB

/-- Modelled from the spec: the reader cursor
(`EventCursor<RemovedComponentEntity>`), `{last_seen_id: optional integer}`;
tracks the highest record id already delivered to its reader. -/
structure EventCursor where
  lastSeen : Option Nat
deriving DecidableEq, Repr

/-- Modelled from the spec: a default cursor has seen nothing. -/
def EventCursor.fresh : EventCursor := EventCursor.mk none

/-- Modelled from the spec: a record is still unseen by a cursor exactly when
its id is strictly greater than the cursor's last seen id (everything is
unseen by a fresh cursor). -/
def EventCursor.unseen (c : EventCursor) (r : RemovalEntry) : Bool :=
  match c.lastSeen with
  | none => true
  | some k => decide (k < r.id)

/-- The records of a feed a cursor has not yet delivered, oldest first. -/
def EventCursor.unread (c : EventCursor) (ev : Events) : List RemovalEntry :=
  ev.retained.filter c.unseen

/-- Modelled from the spec: `len()` of the underlying cursor — the count of
unread records, without consuming any. -/
def EventCursor.len (c : EventCursor) (ev : Events) : Nat :=
  (c.unread ev).length

/-- Modelled from the spec: the underlying cursor is empty iff its `len` is
zero. -/
def EventCursor.isEmpty (c : EventCursor) (ev : Events) : Bool :=
  c.len ev == 0

/-- Modelled from the spec: `clear()` of the underlying cursor advances it to
the feed's newest id without producing entities. -/
def EventCursor.clear (c : EventCursor) (ev : Events) : EventCursor :=
  match ev.retained.getLast? with
  | none => c
  | some r => EventCursor.mk (some r.id)

/-- Modelled from the spec: one step of the lazy read sequence.  Delivering
the oldest unread record advances the cursor exactly to that record's id;
when nothing is unread the cursor is untouched. -/
def EventCursor.readStep (c : EventCursor) (ev : Events) : Option (RemovalEntry × EventCursor) :=
  match c.unread ev with
  | [] => none
  | r :: _ => some (r, EventCursor.mk (some r.id))

/-- Consuming up to `n` items of the lazy read sequence, one `readStep` at a
time; returns the records observed and the cursor after the last observed
record.  This is the consumption-driven semantics of the iterator the spec
demands: cursor advancement is tied to items actually observed. -/
def EventCursor.readTake : Nat → EventCursor → Events → List RemovalEntry × EventCursor
  | 0, c, _ => ([], c)
  | Nat.succ n, c, ev =>
    match c.readStep ev with
    | none => ([], c)
    | some (r, c1) =>
      let p := EventCursor.readTake n c1 ev
      (r :: p.1, p.2)

/-- Running the read sequence to exhaustion: the feed retains only finitely
many records, so `retained.length` steps always suffice. -/
def EventCursor.readAll (c : EventCursor) (ev : Events) : List RemovalEntry × EventCursor :=
  EventCursor.readTake ev.retained.length c ev

/-- Lookup in the sparse associative container, embedded as an association
list (first match wins).  Modelled from the spec: `get(key)`. -/
def getEvents : List (ComponentId × Events) → ComponentId → Option Events
  | [], _ => none
  | p :: rest, cid => if p.1 = cid then some p.2 else getEvents rest cid

/-- Modelled from the spec: `get_or_insert_with(key, factory)` followed by an
append — the feed for the key is created empty when absent, then the record
is written. -/
def sendEvents : List (ComponentId × Events) → ComponentId → Entity → List (ComponentId × Events)
  | [], cid, e => [(cid, Events.empty.write e)]
  | p :: rest, cid, e =>
    if p.1 = cid then (p.1, p.2.write e) :: rest
    else p :: sendEvents rest cid e

/-- `RemovedComponentEvents`: the removal feed registry, one feed per
component id, created lazily (`event_sets: SparseSet<ComponentId, Events>`). -/
structure RemovedComponentEvents where
  eventSets : List (ComponentId × Events)
deriving DecidableEq, Repr

/-- `RemovedComponentEvents::new`: empty storage. -/
def RemovedComponentEvents.new : RemovedComponentEvents := RemovedComponentEvents.mk []

/-- `RemovedComponentEvents::get`: the event storage for a component, absent
when that component id has never been sent. -/
def RemovedComponentEvents.get (w : RemovedComponentEvents) (cid : ComponentId) : Option Events :=
  getEvents w.eventSets cid

/-- `RemovedComponentEvents::send`: appends a removal event for the component,
creating its feed first when absent.  Always succeeds. -/
def RemovedComponentEvents.send (w : RemovedComponentEvents) (cid : ComponentId) (e : Entity) :
    RemovedComponentEvents :=
  RemovedComponentEvents.mk (sendEvents w.eventSets cid e)

/-- `RemovedComponentEvents::update`: for each component's feed, swaps the
event buffers and clears the oldest one. -/
def RemovedComponentEvents.update (w : RemovedComponentEvents) : RemovedComponentEvents :=
  RemovedComponentEvents.mk (w.eventSets.map (fun p => (p.1, p.2.update)))

/-- `RemovedComponentEvents::iter`: read-only exposure of the
(component id, feed) pairs. -/
def RemovedComponentEvents.iter (w : RemovedComponentEvents) : List (ComponentId × Events) :=
  w.eventSets

/-- `RemovedComponents<T>`: the consumer view.  The resolved component id
(`ComponentIdFor<T>`) plus the persistent per-system reader
(`Local<RemovedComponentReader<T>>`, which is an `EventCursor` behind a
phantom type tag).  The shared registry reference is passed to each
operation explicitly. -/
structure RemovedComponents where
  componentId : ComponentId
  reader : EventCursor
deriving DecidableEq, Repr

/-- A freshly constructed consumer for a component id: its `Local` reader
starts out at the default cursor. -/
def RemovedComponents.fresh (cid : ComponentId) : RemovedComponents :=
  RemovedComponents.mk cid EventCursor.fresh

/-- `RemovedComponents::events`: the feed keyed by this consumer's own
resolved component id, when present. -/
def RemovedComponents.events (rc : RemovedComponents) (w : RemovedComponentEvents) :
    Option Events :=
  w.get rc.componentId

/-- `RemovedComponents::read`: iterates over the unseen events, yielding
entities; an absent feed yields nothing (`Option` flattened into the
iterator) and leaves the reader untouched. -/
def RemovedComponents.read (rc : RemovedComponents) (w : RemovedComponentEvents) :
    List Entity × RemovedComponents :=
  match rc.events w with
  | none => ([], rc)
  | some ev =>
    let p := rc.reader.readAll ev
    (p.1.map RemovalEntry.entity, RemovedComponents.mk rc.componentId p.2)

/-- `RemovedComponents::read_with_id`: like `read`, but also yielding each
event's id. -/
def RemovedComponents.readWithId (rc : RemovedComponents) (w : RemovedComponentEvents) :
    List (Entity × Nat) × RemovedComponents :=
  match rc.events w with
  | none => ([], rc)
  | some ev =>
    let p := rc.reader.readAll ev
    (p.1.map (fun r => (r.entity, r.id)), RemovedComponents.mk rc.componentId p.2)

/-- Consuming only the first `n` items of the sequence `read` returns and
then abandoning it: the cursor advances only as far as the items actually
observed. -/
def RemovedComponents.readTake (rc : RemovedComponents) (w : RemovedComponentEvents) (n : Nat) :
    List Entity × RemovedComponents :=
  match rc.events w with
  | none => ([], rc)
  | some ev =>
    let p := EventCursor.readTake n rc.reader ev
    (p.1.map RemovalEntry.entity, RemovedComponents.mk rc.componentId p.2)

/-- `RemovedComponents::len`: the number of removal events available to read,
without consuming any; `0` when the feed is absent (`unwrap_or(0)`). -/
def RemovedComponents.len (rc : RemovedComponents) (w : RemovedComponentEvents) : Nat :=
  match rc.events w with
  | none => 0
  | some ev => rc.reader.len ev

/-- `RemovedComponents::is_empty`: true when there are no events available to
read; an absent feed counts as empty (`is_none_or`). -/
def RemovedComponents.isEmpty (rc : RemovedComponents) (w : RemovedComponentEvents) : Bool :=
  match rc.events w with
  | none => true
  | some ev => rc.reader.isEmpty ev

/-- `RemovedComponents::clear`: consumes all available events by clearing the
reader against the feed; a no-op when the feed is absent. -/
def RemovedComponents.clear (rc : RemovedComponents) (w : RemovedComponentEvents) :
    RemovedComponents :=
  match rc.events w with
  | none => rc
  | some ev => RemovedComponents.mk rc.componentId (rc.reader.clear ev)

/-- Registry-level operations, for reasoning about arbitrary interleavings of
the two mutating entry points. -/
inductive Op where
  | send : ComponentId → Entity → Op
  | update : Op
deriving DecidableEq, Repr

/-- Applying one registry operation. -/
def applyOp (w : RemovedComponentEvents) : Op → RemovedComponentEvents
  | Op.send cid e => w.send cid e
  | Op.update => w.update

/-- Applying a sequence of registry operations, left to right. -/
def applyOps (w : RemovedComponentEvents) (ops : List Op) : RemovedComponentEvents :=
  ops.foldl applyOp w

/-- Well-formedness of a feed: retained record ids strictly increase (oldest
first), and all are below the next id to be handed out.  Every feed the
registry can actually build satisfies this. -/
def EventsWF (ev : Events) : Prop :=
  ev.retained.Pairwise (fun a b => a.id < b.id) ∧ ∀ r ∈ ev.retained, r.id < ev.eventCount

instance (ev : Events) : Decidable (EventsWF ev) := by
  unfold EventsWF; infer_instance

/-- Well-formedness of a registry: every present feed is well-formed. -/
def RegistryWF (w : RemovedComponentEvents) : Prop :=
  ∀ p ∈ w.eventSets, EventsWF p.2

instance (w : RemovedComponentEvents) : Decidable (RegistryWF w) := by
  unfold RegistryWF; infer_instance

/-- Well-formedness of a cursor against the feed it is bound to: a cursor
that has seen anything has a feed, and its last seen id is below the feed's
next id.  Every cursor reachable through reads and clears satisfies this. -/
def cursorWF (c : EventCursor) (ev? : Option Events) : Bool :=
  match c.lastSeen, ev? with
  | none, _ => true
  | some _, none => false
  | some k, some ev => decide (k < ev.eventCount)

/-- The entities currently retained in a component's feed (empty when the
feed is absent). -/
def feedEntities (w : RemovedComponentEvents) (cid : ComponentId) : List Entity :=
  match w.get cid with
  | none => []
  | some ev => ev.retained.map RemovalEntry.entity

/-- Where a cursor stands after observing a batch of records: at the id of
the last record observed, untouched when nothing was observed.  Used to
describe the cursor produced by reads. -/
def cursorAfter (c : EventCursor) (l : List RemovalEntry) : EventCursor :=
  match l.getLast? with
  | none => c
  | some r => EventCursor.mk (some r.id)

/-- Whether a registry operation sends to the given component id. -/
def opSendsTo (k : ComponentId) : Op → Bool
  | Op.send cid _ => k == cid
  | Op.update => false

/-- Claim C1: for every pair of entities and every component type, after
`send(A, e1)` then `send(A, e2)` with no intervening `update()`, a fresh
reader bound to `A` has `read()` yield exactly `[e1, e2]` in that order. -/
theorem read_after_two_sends (cid : ComponentId) (e1 e2 : Entity) :
    ((RemovedComponents.fresh cid).read
        ((RemovedComponentEvents.new.send cid e1).send cid e2)).1 = [e1, e2] := by
  simp [RemovedComponents.read, RemovedComponents.fresh, RemovedComponents.events,
    RemovedComponentEvents.send, RemovedComponentEvents.new, RemovedComponentEvents.get,
    sendEvents, getEvents, Events.empty, Events.write, EventCursor.readAll, Events.retained,
    EventCursor.readTake, EventCursor.readStep, EventCursor.unread, EventCursor.unseen,
    EventCursor.fresh, List.filter]

/-- Claim C2: one `update()` between two send bursts drops no entry unread by
a reader, and two consecutive `update()` calls with no intervening read drop
the earlier burst entirely: after `send(H, e5); send(H, e7); update()`, a
fresh reader's `read()` yields `[e5, e7]` (nothing was dropped), a burst sent
after the update is seen together with the earlier one, and after a further
`update()` with no reads a fresh reader's `read()` yields `[]`. -/
theorem update_generation_window (cid : ComponentId) (e5 e7 e8 : Entity) :
    ((RemovedComponents.fresh cid).read
        (((RemovedComponentEvents.new.send cid e5).send cid e7).update)).1 = [e5, e7] ∧
    ((RemovedComponents.fresh cid).read
        ((((RemovedComponentEvents.new.send cid e5).send cid e7).update).send cid e8)).1 =
      [e5, e7, e8] ∧
    ((RemovedComponents.fresh cid).read
        ((((RemovedComponentEvents.new.send cid e5).send cid e7).update).update)).1 = [] := by
  refine ⟨?_, ?_, ?_⟩ <;>
  simp [RemovedComponents.read, RemovedComponents.fresh, RemovedComponents.events,
    RemovedComponentEvents.send, RemovedComponentEvents.new, RemovedComponentEvents.get,
    RemovedComponentEvents.update, Events.update,
    sendEvents, getEvents, Events.empty, Events.write, EventCursor.readAll, Events.retained,
    EventCursor.readTake, EventCursor.readStep, EventCursor.unread, EventCursor.unseen,
    EventCursor.fresh, List.filter]

theorem unseen_none (r : RemovalEntry) : (EventCursor.mk none).unseen r = true := rfl

theorem unseen_some (k : Nat) (r : RemovalEntry) :
    (EventCursor.mk (some k)).unseen r = decide (k < r.id) := rfl

theorem retained_write (ev : Events) (e : Entity) :
    (ev.write e).retained = ev.retained ++ [RemovalEntry.mk ev.eventCount e] := by
  simp [Events.write, Events.retained]

theorem unread_fresh (ev : Events) : EventCursor.fresh.unread ev = ev.retained := by
  simp [EventCursor.unread, EventCursor.fresh, unseen_none]

theorem filter_unseen_step :
    ∀ (l : List RemovalEntry), l.Pairwise (fun a b => a.id < b.id) →
    ∀ (c : EventCursor) (r : RemovalEntry) (rest : List RemovalEntry),
    l.filter c.unseen = r :: rest →
    l.filter (EventCursor.mk (some r.id)).unseen = rest := by
  intro l hl
  induction l with
  | nil => intro c r rest h; simp at h
  | cons a t ih =>
    intro c r rest h
    rw [List.pairwise_cons] at hl
    by_cases ha : c.unseen a = true
    · rw [List.filter_cons_of_pos ha] at h
      obtain ⟨rfl, hrest⟩ : a = r ∧ t.filter c.unseen = rest := by
        constructor
        · exact (List.cons.injEq _ _ _ _ ▸ h).1
        · exact (List.cons.injEq _ _ _ _ ▸ h).2
      have hhead : (EventCursor.mk (some a.id)).unseen a = false := by
        simp [unseen_some]
      rw [List.filter_cons_of_neg (by simp [hhead])]
      have ht1 : t.filter (EventCursor.mk (some a.id)).unseen = t := by
        apply List.filter_eq_self.mpr
        intro b hb
        simp [unseen_some]
        exact hl.1 b hb
      have ht2 : t.filter c.unseen = t := by
        apply List.filter_eq_self.mpr
        intro b hb
        cases hc : c.lastSeen with
        | none => simp [EventCursor.unseen, hc]
        | some k =>
          have hk : k < a.id := by
            have := ha
            simp [EventCursor.unseen, hc] at this
            exact this
          simp [EventCursor.unseen, hc]
          exact lt_trans hk (hl.1 b hb)
      rw [ht1, ← ht2, hrest]
    · rw [List.filter_cons_of_neg (by simpa using ha)] at h
      have hrt := ih hl.2 c r rest h
      have hr_mem : r ∈ t.filter c.unseen := by rw [h]; exact List.mem_cons_self _ _
      have hr_unseen : c.unseen r = true := List.of_mem_filter hr_mem
      have hk : ∃ k, c.lastSeen = some k ∧ a.id ≤ k := by
        cases hc : c.lastSeen with
        | none => exact absurd (by simp [EventCursor.unseen, hc]) ha
        | some k =>
          refine ⟨k, rfl, ?_⟩
          have := ha
          simp [EventCursor.unseen, hc] at this
          exact this
      obtain ⟨k, hc, hak⟩ := hk
      have hkr : k < r.id := by
        have := hr_unseen
        simp [EventCursor.unseen, hc] at this
        exact this
      have hhead : (EventCursor.mk (some r.id)).unseen a = false := by
        simp [unseen_some]
        exact le_trans hak (le_of_lt hkr)
      rw [List.filter_cons_of_neg (by simp [hhead]), hrt]

theorem getEvents_mem :
    ∀ (l : List (ComponentId × Events)) (cid : ComponentId) (ev : Events),
    getEvents l cid = some ev → (cid, ev) ∈ l := by
  intro l
  induction l with
  | nil => intro cid ev h; simp [getEvents] at h
  | cons p rest ih =>
    intro cid ev h
    by_cases hp : p.1 = cid
    · rw [getEvents, if_pos hp] at h
      have : p = (cid, ev) := by
        cases p
        simp_all
      rw [← this]
      exact List.mem_cons_self _ _
    · rw [getEvents, if_neg hp] at h
      exact List.mem_cons_of_mem _ (ih cid ev h)

theorem registryWF_get (w : RemovedComponentEvents) (cid : ComponentId) (ev : Events)
    (h : RegistryWF w) (hg : w.get cid = some ev) : EventsWF ev :=
  h (cid, ev) (getEvents_mem _ _ _ hg)

theorem readTake_le (ev : Events) (hwf : EventsWF ev) :
    ∀ (n : Nat) (c : EventCursor), n ≤ c.len ev →
    EventCursor.readTake n c ev =
      ((c.unread ev).take n, cursorAfter c ((c.unread ev).take n)) := by
  intro n
  induction n with
  | zero =>
    intro c _
    simp [EventCursor.readTake, cursorAfter]
  | succ n ih =>
    intro c hn
    cases hu : c.unread ev with
    | nil =>
      exfalso
      simp [EventCursor.len, hu] at hn
    | cons r rest =>
      have hstep : c.readStep ev = some (r, EventCursor.mk (some r.id)) := by
        simp [EventCursor.readStep, hu]
      have hrest : (EventCursor.mk (some r.id)).unread ev = rest :=
        filter_unseen_step ev.retained hwf.1 c r rest hu
      have hlen : n + 1 ≤ rest.length + 1 := by
        have := hn
        simp [EventCursor.len, hu] at this
        omega
      have hn' : n ≤ (EventCursor.mk (some r.id)).len ev := by
        simp [EventCursor.len, hrest]
        omega
      have hih := ih (EventCursor.mk (some r.id)) hn'
      simp only [EventCursor.readTake, hstep]
      rw [hih, hrest]
      simp only [List.take_succ_cons]
      cases hrn : rest.take n with
      | nil => simp [cursorAfter]
      | cons x xs =>
        obtain ⟨y, hy⟩ := Option.isSome_iff_exists.mp (List.getLast?_isSome.mpr (List.cons_ne_nil x xs))
        simp [cursorAfter, List.getLast?_cons_cons, hy]

theorem readTake_ge (ev : Events) (hwf : EventsWF ev) :
    ∀ (n : Nat) (c : EventCursor), c.len ev ≤ n →
    EventCursor.readTake n c ev = (c.unread ev, cursorAfter c (c.unread ev)) := by
  intro n
  induction n with
  | zero =>
    intro c hn
    have h0 : c.unread ev = [] := by
      have : (c.unread ev).length = 0 := Nat.le_zero.mp hn
      exact List.length_eq_zero.mp this
    simp [EventCursor.readTake, h0, cursorAfter]
  | succ n ih =>
    intro c hn
    cases hu : c.unread ev with
    | nil =>
      simp [EventCursor.readTake, EventCursor.readStep, hu, cursorAfter]
    | cons r rest =>
      have hstep : c.readStep ev = some (r, EventCursor.mk (some r.id)) := by
        simp [EventCursor.readStep, hu]
      have hrest : (EventCursor.mk (some r.id)).unread ev = rest :=
        filter_unseen_step ev.retained hwf.1 c r rest hu
      have hn' : (EventCursor.mk (some r.id)).len ev ≤ n := by
        have := hn
        simp [EventCursor.len, hu] at this
        simp [EventCursor.len, hrest]
        omega
      have hih := ih (EventCursor.mk (some r.id)) hn'
      simp only [EventCursor.readTake, hstep]
      rw [hih, hrest]
      cases rest with
      | nil => simp [cursorAfter]
      | cons x xs =>
        obtain ⟨y, hy⟩ := Option.isSome_iff_exists.mp (List.getLast?_isSome.mpr (List.cons_ne_nil x xs))
        simp [cursorAfter, List.getLast?_cons_cons, hy]

theorem readAll_eq (c : EventCursor) (ev : Events) (hwf : EventsWF ev) :
    c.readAll ev = (c.unread ev, cursorAfter c (c.unread ev)) := by
  apply readTake_ge ev hwf
  exact List.length_filter_le _ _

theorem get_send_ne :
    ∀ (l : List (ComponentId × Events)) (cid : ComponentId) (e : Entity) (B : ComponentId),
    B ≠ cid → getEvents (sendEvents l cid e) B = getEvents l B := by
  intro l cid e B hne
  induction l with
  | nil => simp [sendEvents, getEvents, Ne.symm hne]
  | cons p rest ih =>
    by_cases hp : p.1 = cid
    · simp [sendEvents, if_pos hp, getEvents, hp, Ne.symm hne]
    · by_cases hb : p.1 = B
      · simp [sendEvents, if_neg hp, getEvents, hb, hne]
      · simp [sendEvents, if_neg hp, getEvents, hb, ih]

theorem get_send_eq :
    ∀ (l : List (ComponentId × Events)) (cid : ComponentId) (e : Entity),
    getEvents (sendEvents l cid e) cid =
      some ((match getEvents l cid with
             | none => Events.empty
             | some ev => ev).write e) := by
  intro l cid e
  induction l with
  | nil => simp [sendEvents, getEvents]
  | cons p rest ih =>
    by_cases hp : p.1 = cid
    · simp [sendEvents, if_pos hp, getEvents, hp]
    · simp [sendEvents, if_neg hp, getEvents, hp, ih]

theorem get_update :
    ∀ (l : List (ComponentId × Events)) (cid : ComponentId),
    getEvents (l.map (fun p => (p.1, p.2.update))) cid = (getEvents l cid).map Events.update := by
  intro l cid
  induction l with
  | nil => simp [getEvents]
  | cons p rest ih =>
    by_cases hp : p.1 = cid
    · simp [getEvents, hp]
    · simp [getEvents, hp, ih]

theorem eventsWF_empty : EventsWF Events.empty := by
  constructor <;> simp [Events.empty, Events.retained]

theorem eventsWF_write (ev : Events) (e : Entity) (h : EventsWF ev) : EventsWF (ev.write e) := by
  constructor
  · rw [retained_write, List.pairwise_append]
    refine ⟨h.1, List.pairwise_singleton _ _, ?_⟩
    intro a ha b hb
    simp at hb
    rw [hb]
    exact h.2 a ha
  · intro r hr
    rw [retained_write] at hr
    simp [Events.write]
    rcases List.mem_append.mp hr with hold | hnew
    · exact lt_trans (h.2 r hold) (Nat.lt_succ_self _)
    · simp at hnew
      rw [hnew]
      exact Nat.lt_succ_self _

theorem eventsWF_update (ev : Events) (h : EventsWF ev) : EventsWF ev.update := by
  have hsub : ev.update.retained ⊆ ev.retained := by
    intro r hr
    simp [Events.update, Events.retained] at hr
    simp [Events.retained]
    exact Or.inr hr
  constructor
  · have hpw : ev.retained.Pairwise (fun a b => a.id < b.id) := h.1
    rw [Events.retained, List.pairwise_append] at hpw
    simp [Events.update, Events.retained]
    exact hpw.2.1
  · intro r hr
    have := h.2 r (hsub hr)
    simpa [Events.update] using this

theorem mem_id_le_getLast :
    ∀ (l : List RemovalEntry), l.Pairwise (fun a b => a.id < b.id) →
    ∀ (x : RemovalEntry), l.getLast? = some x → ∀ r ∈ l, r.id ≤ x.id := by
  intro l
  induction l with
  | nil => intro _ x hx; simp at hx
  | cons a t ih =>
    intro hpw x hx r hr
    rw [List.pairwise_cons] at hpw
    cases t with
    | nil =>
      simp at hx hr
      rw [hr, ← hx]
    | cons b u =>
      rw [List.getLast?_cons_cons] at hx
      have hxmem : x ∈ b :: u := by
        obtain ⟨hne, hxe⟩ := List.mem_getLast?_eq_getLast (Option.mem_def.mpr hx)
        rw [hxe]
        exact List.getLast_mem hne
      rcases List.mem_cons.mp hr with rfl | hrt
      · exact le_of_lt (hpw.1 x hxmem)
      · exact ih hpw.2 x hx r hrt

theorem readTake_mem :
    ∀ (n : Nat) (c : EventCursor) (ev : Events) (r : RemovalEntry),
    r ∈ (EventCursor.readTake n c ev).1 → r ∈ ev.retained := by
  intro n
  induction n with
  | zero => intro c ev r hr; simp [EventCursor.readTake] at hr
  | succ n ih =>
    intro c ev r hr
    cases hu : c.unread ev with
    | nil =>
      simp [EventCursor.readTake, EventCursor.readStep, hu] at hr
    | cons r0 rest =>
      have hstep : c.readStep ev = some (r0, EventCursor.mk (some r0.id)) := by
        simp [EventCursor.readStep, hu]
      simp only [EventCursor.readTake, hstep] at hr
      rcases List.mem_cons.mp hr with rfl | htail
      · have : r ∈ c.unread ev := by rw [hu]; exact List.mem_cons_self _ _
        exact List.mem_of_mem_filter this
      · exact ih (EventCursor.mk (some r0.id)) ev r htail

/-- Claim C4: for every reader state and well-formed registry state, `read()`
yields exactly the entries of the bound feed whose id is strictly greater
than the reader's cursor position (all of them for a fresh cursor), across
both retained generations in oldest-first order (their ids strictly
increase); afterwards the cursor sits at the id of the last entry produced,
and is unchanged when nothing is produced or the feed is absent. -/
theorem read_spec (rc : RemovedComponents) (w : RemovedComponentEvents) (h : RegistryWF w) :
    (rc.events w = none → rc.read w = ([], rc)) ∧
    (∀ ev, rc.events w = some ev →
      rc.read w = ((rc.reader.unread ev).map RemovalEntry.entity,
        RemovedComponents.mk rc.componentId (cursorAfter rc.reader (rc.reader.unread ev))) ∧
      (rc.reader.unread ev).Pairwise (fun a b => a.id < b.id)) := by
  constructor
  · intro hev
    simp [RemovedComponents.read, hev]
  · intro ev hev
    have hwf := registryWF_get w rc.componentId ev h hev
    constructor
    · simp [RemovedComponents.read, hev, readAll_eq rc.reader ev hwf]
    · exact List.Pairwise.filter rc.reader.unseen hwf.1

theorem read_spec_witness :
    (RemovedComponents.fresh 0).read (RemovedComponentEvents.new.send 0 5) =
      ([5], RemovedComponents.mk 0 (EventCursor.mk (some 0))) := by
  have h := (read_spec (RemovedComponents.fresh 0) (RemovedComponentEvents.new.send 0 5)
      (by decide)).2 (Events.mk [] [RemovalEntry.mk 0 5] 1) (by decide)
  exact h.1.trans (by decide)

/-- Claim C6: no consumer operation ever fails — when the feed for the bound
component is absent (nothing was ever sent for it), `read()` and
`read_with_id()` yield the empty sequence and leave the reader untouched,
`len()` is `0`, `is_empty()` is `true`, and `clear()` is a no-op. -/
theorem absent_feed_total (rc : RemovedComponents) (w : RemovedComponentEvents)
    (h : rc.events w = none) :
    rc.read w = ([], rc) ∧ rc.readWithId w = ([], rc) ∧ rc.len w = 0 ∧
    rc.isEmpty w = true ∧ rc.clear w = rc := by
  refine ⟨?_, ?_, ?_, ?_, ?_⟩ <;>
    simp [RemovedComponents.read, RemovedComponents.readWithId, RemovedComponents.len,
      RemovedComponents.isEmpty, RemovedComponents.clear, h]

theorem absent_feed_total_witness :
    (RemovedComponents.fresh 3).read RemovedComponentEvents.new =
        ([], RemovedComponents.fresh 3) ∧
    (RemovedComponents.fresh 3).readWithId RemovedComponentEvents.new =
        ([], RemovedComponents.fresh 3) ∧
    (RemovedComponents.fresh 3).len RemovedComponentEvents.new = 0 ∧
    (RemovedComponents.fresh 3).isEmpty RemovedComponentEvents.new = true ∧
    (RemovedComponents.fresh 3).clear RemovedComponentEvents.new = RemovedComponents.fresh 3 :=
  absent_feed_total (RemovedComponents.fresh 3) RemovedComponentEvents.new (by decide)

/-- Claim C7: if the sequence returned by `read()` is consumed for only its
first `n` items (with `n` at most the number of unread entries) and then
abandoned, the reader observes exactly the first `n` unread entries and the
cursor is advanced exactly to the id of the last item observed (not past
it, and not at all when `n = 0`): cursor advancement is tied to consumption
of the sequence, not to its construction. -/
theorem readTake_cursor_advance (rc : RemovedComponents) (w : RemovedComponentEvents) (n : Nat)
    (ev : Events) (h : RegistryWF w) (hev : rc.events w = some ev) (hn : n ≤ rc.len w) :
    rc.readTake w n =
      (((rc.reader.unread ev).take n).map RemovalEntry.entity,
        RemovedComponents.mk rc.componentId
          (cursorAfter rc.reader ((rc.reader.unread ev).take n))) := by
  have hwf := registryWF_get w rc.componentId ev h hev
  have hlen : rc.len w = rc.reader.len ev := by
    simp [RemovedComponents.len, hev]
  have hrt := readTake_le ev hwf n rc.reader (hlen ▸ hn)
  simp [RemovedComponents.readTake, hev, hrt]

theorem readTake_cursor_advance_witness :
    (RemovedComponents.fresh 0).readTake ((RemovedComponentEvents.new.send 0 3).send 0 4) 1 =
      ([3], RemovedComponents.mk 0 (EventCursor.mk (some 0))) := by
  have h := readTake_cursor_advance (RemovedComponents.fresh 0)
      ((RemovedComponentEvents.new.send 0 3).send 0 4) 1
      (Events.mk [] [RemovalEntry.mk 0 3, RemovalEntry.mk 1 4] 2)
      (by decide) (by decide) (by decide)
  exact h.trans (by decide)

/-- Claim C8: for every reader state and registry state, `is_empty()` is true
exactly when `len()` is zero; both are functions of the reader and registry
alone (they take no mutable state and return none, mirroring the `&self`
receivers in the source). -/
theorem isEmpty_iff_len_zero (rc : RemovedComponents) (w : RemovedComponentEvents) :
    rc.isEmpty w = true ↔ rc.len w = 0 := by
  cases hev : rc.events w with
  | none => simp [RemovedComponents.isEmpty, RemovedComponents.len, hev]
  | some ev =>
    simp [RemovedComponents.isEmpty, RemovedComponents.len, hev, EventCursor.isEmpty]

/-- Claim C10: `send(A, e)` leaves the feed of every component id distinct
from `A` unchanged — `get(B)` returns the same result before and after the
send. -/
theorem send_other_feed_unchanged (w : RemovedComponentEvents) (cid : ComponentId) (e : Entity)
    (B : ComponentId) (h : B ≠ cid) : (w.send cid e).get B = w.get B :=
  get_send_ne w.eventSets cid e B h

theorem send_other_feed_unchanged_witness :
    ((RemovedComponentEvents.new.send 0 1).send 2 9).get 0 =
      (RemovedComponentEvents.new.send 0 1).get 0 :=
  send_other_feed_unchanged (RemovedComponentEvents.new.send 0 1) 2 9 0 (by decide)

theorem wget_update (w : RemovedComponentEvents) (k : ComponentId) :
    (w.update).get k = (w.get k).map Events.update := by
  simp [RemovedComponentEvents.update, RemovedComponentEvents.get, get_update]

theorem wget_send_eq (w : RemovedComponentEvents) (cid : ComponentId) (e : Entity) :
    (w.send cid e).get cid =
      some ((match w.get cid with
             | none => Events.empty
             | some ev => ev).write e) := by
  simp [RemovedComponentEvents.send, RemovedComponentEvents.get, get_send_eq]

theorem feedEntities_step (w : RemovedComponentEvents) (op : Op) (B : ComponentId) (e : Entity)
    (h : e ∈ feedEntities (applyOp w op) B) : e ∈ feedEntities w B ∨ op = Op.send B e := by
  cases op with
  | update =>
    left
    rw [applyOp] at h
    rw [feedEntities, wget_update] at h
    rw [feedEntities]
    cases hg : w.get B with
    | none => simp [hg] at h
    | some ev =>
      rw [hg] at h
      have h1 : e ∈ (ev.update).retained.map RemovalEntry.entity := h
      have hsub : (ev.update).retained ⊆ ev.retained := by
        intro r hr
        simp [Events.update, Events.retained] at hr
        simp [Events.retained]
        exact Or.inr hr
      obtain ⟨r, hr, hre⟩ := List.mem_map.mp h1
      exact List.mem_map.mpr ⟨r, hsub hr, hre⟩
  | send cid e1 =>
    by_cases hB : B = cid
    · subst hB
      rw [applyOp, feedEntities, wget_send_eq] at h
      cases hg : w.get B with
      | none =>
        simp only [hg] at h
        simp [Events.empty, Events.write, Events.retained] at h
        right
        rw [h]
      | some ev =>
        simp only [hg] at h
        rw [retained_write] at h
        simp only [List.map_append, List.mem_append] at h
        rcases h with h | h
        · left
          rw [feedEntities, hg]
          exact h
        · right
          simp at h
          rw [h]
    · left
      rw [applyOp] at h
      rw [feedEntities, show (w.send cid e1).get B = w.get B from get_send_ne _ _ _ _ hB] at h
      rw [feedEntities]
      exact h

theorem feedEntities_applyOps :
    ∀ (ops : List Op) (w : RemovedComponentEvents) (B : ComponentId) (e : Entity),
    e ∈ feedEntities (applyOps w ops) B → e ∈ feedEntities w B ∨ Op.send B e ∈ ops := by
  intro ops
  induction ops with
  | nil =>
    intro w B e h
    left
    simpa [applyOps] using h
  | cons op rest ih =>
    intro w B e h
    have h1 : e ∈ feedEntities (applyOps (applyOp w op) rest) B := by
      simpa [applyOps, List.foldl_cons] using h
    rcases ih (applyOp w op) B e h1 with h2 | h2
    · rcases feedEntities_step w op B e h2 with h3 | h3
      · exact Or.inl h3
      · right
        rw [h3]
        exact List.mem_cons_self _ _
    · right
      exact List.mem_cons_of_mem _ h2

/-- Claim C3: a reader bound to component type `B` never observes, through
`read()` or `read_with_id()`, an entity that was not sent for `B`: under any
interleaving of sends and updates building the registry (reader operations
do not touch the registry), every entity the reader yields was the argument
of some `send(B, _)`.  Every reader operation consults only the feed keyed
by its own component id. -/
theorem reader_type_isolation (ops : List Op) (B : ComponentId) (c : EventCursor) (e : Entity)
    (h : e ∈ ((RemovedComponents.mk B c).read (applyOps RemovedComponentEvents.new ops)).1 ∨
         ∃ i, (e, i) ∈
           ((RemovedComponents.mk B c).readWithId (applyOps RemovedComponentEvents.new ops)).1) :
    Op.send B e ∈ ops := by
  have hfeed : e ∈ feedEntities (applyOps RemovedComponentEvents.new ops) B := by
    rcases h with h | ⟨i, h⟩
    · rw [RemovedComponents.read] at h
      cases hev : (RemovedComponents.mk B c).events (applyOps RemovedComponentEvents.new ops) with
      | none => rw [hev] at h; simp at h
      | some ev =>
        rw [hev] at h
        simp only [List.mem_map] at h
        obtain ⟨r, hr, hre⟩ := h
        have hmem : r ∈ ev.retained := readTake_mem _ _ _ _ hr
        rw [feedEntities, show (applyOps RemovedComponentEvents.new ops).get B = some ev from hev]
        rw [← hre]
        exact List.mem_map_of_mem _ hmem
    · rw [RemovedComponents.readWithId] at h
      cases hev : (RemovedComponents.mk B c).events (applyOps RemovedComponentEvents.new ops) with
      | none => rw [hev] at h; simp at h
      | some ev =>
        rw [hev] at h
        simp only [List.mem_map] at h
        obtain ⟨r, hr, hre⟩ := h
        have hmem : r ∈ ev.retained := readTake_mem _ _ _ _ hr
        rw [feedEntities, show (applyOps RemovedComponentEvents.new ops).get B = some ev from hev]
        have hre' : r.entity = e := by
          have := congrArg Prod.fst hre
          simpa using this
        rw [← hre']
        exact List.mem_map_of_mem _ hmem
  rcases feedEntities_applyOps ops RemovedComponentEvents.new B e hfeed with h0 | hs
  · exfalso
    simp [feedEntities, RemovedComponentEvents.get, RemovedComponentEvents.new, getEvents] at h0
  · exact hs

theorem reader_type_isolation_witness :
    Op.send 0 5 ∈ [Op.send 0 5] :=
  reader_type_isolation [Op.send 0 5] 0 EventCursor.fresh 5 (Or.inl (by decide))

theorem unread_after_clear (c : EventCursor) (ev : Events) (hwf : EventsWF ev) :
    (c.clear ev).unread ev = [] := by
  cases hlast : ev.retained.getLast? with
  | none =>
    have hret : ev.retained = [] := by
      cases hr : ev.retained with
      | nil => rfl
      | cons a t =>
        rw [hr] at hlast
        obtain ⟨y, hy⟩ :=
          Option.isSome_iff_exists.mp (List.getLast?_isSome.mpr (List.cons_ne_nil a t))
        rw [hy] at hlast
        cases hlast
    simp only [EventCursor.clear, hlast, EventCursor.unread, hret, List.filter_nil]
  | some x =>
    have hle : ∀ r ∈ ev.retained, r.id ≤ x.id := mem_id_le_getLast ev.retained hwf.1 x hlast
    simp only [EventCursor.clear, hlast, EventCursor.unread]
    rw [List.filter_eq_nil_iff]
    intro r hr
    simp [unseen_some]
    exact hle r hr

theorem unread_write (c : EventCursor) (ev : Events) (e : Entity)
    (hc : ∀ k, c.lastSeen = some k → k < ev.eventCount) :
    c.unread (ev.write e) = c.unread ev ++ [RemovalEntry.mk ev.eventCount e] := by
  rw [EventCursor.unread, retained_write, List.filter_append]
  have hx : c.unseen (RemovalEntry.mk ev.eventCount e) = true := by
    cases hl : c.lastSeen with
    | none => simp [EventCursor.unseen, hl]
    | some k =>
      simp [EventCursor.unseen, hl]
      exact hc k hl
  rw [show ([RemovalEntry.mk ev.eventCount e].filter c.unseen) =
        [RemovalEntry.mk ev.eventCount e] by simp [hx]]
  rfl

theorem clear_lastSeen_lt (c : EventCursor) (ev : Events) (hwf : EventsWF ev)
    (hc : ∀ k, c.lastSeen = some k → k < ev.eventCount) :
    ∀ k, (c.clear ev).lastSeen = some k → k < ev.eventCount := by
  intro k hk
  cases hlast : ev.retained.getLast? with
  | none =>
    simp only [EventCursor.clear, hlast] at hk
    exact hc k hk
  | some x =>
    simp only [EventCursor.clear, hlast] at hk
    have hk2 : x.id = k := by simpa using hk
    have hxmem : x ∈ ev.retained := by
      obtain ⟨hne, hxe⟩ := List.mem_getLast?_eq_getLast (Option.mem_def.mpr hlast)
      rw [hxe]
      exact List.getLast_mem hne
    have := hwf.2 x hxmem
    omega

/-- Claim C5: after reader `r` calls `clear()`, a subsequent `read()` by `r`
yields no entry that was sent before the clear — an immediate `read()` yields
nothing, and after one further `send` only that new entry is yielded — while
the registry itself is untouched (`clear` returns only the new reader state),
so a fresh reader created afterwards still observes every retained entry
(cursor independence). -/
theorem clear_cursor_independence (rc : RemovedComponents) (w : RemovedComponentEvents)
    (e : Entity) (h : RegistryWF w) (hc : cursorWF rc.reader (rc.events w) = true) :
    ((rc.clear w).read w).1 = [] ∧
    ((rc.clear w).read (w.send rc.componentId e)).1 = [e] ∧
    ((RemovedComponents.fresh rc.componentId).read w).1 = feedEntities w rc.componentId := by
  cases hev : rc.events w with
  | none =>
    have hnone : rc.reader.lastSeen = none := by
      cases hl : rc.reader.lastSeen with
      | none => rfl
      | some k =>
        rw [hev] at hc
        simp [cursorWF, hl] at hc
    have hclear : rc.clear w = rc := by
      simp [RemovedComponents.clear, hev]
    have hget : (w.send rc.componentId e).get rc.componentId = some (Events.empty.write e) := by
      rw [wget_send_eq]
      rw [show w.get rc.componentId = none from hev]
    refine ⟨?_, ?_, ?_⟩
    · rw [hclear]
      simp [RemovedComponents.read, hev]
    · rw [hclear]
      have hwfw : EventsWF (Events.empty.write e) := eventsWF_write _ _ eventsWF_empty
      rw [RemovedComponents.read]
      rw [show rc.events (w.send rc.componentId e) = some (Events.empty.write e) from hget]
      simp only [readAll_eq rc.reader _ hwfw]
      rw [show rc.reader.unread (Events.empty.write e) = [RemovalEntry.mk 0 e] by
        simp [EventCursor.unread, Events.empty, Events.write, Events.retained,
          EventCursor.unseen, hnone]]
      simp
    · rw [RemovedComponents.read]
      rw [show (RemovedComponents.fresh rc.componentId).events w = none from hev]
      simp [feedEntities, show w.get rc.componentId = none from hev]
  | some ev =>
    have hwf := registryWF_get w rc.componentId ev h hev
    have hck : ∀ k, rc.reader.lastSeen = some k → k < ev.eventCount := by
      intro k hk
      rw [hev] at hc
      simp [cursorWF, hk] at hc
      exact hc
    have hck' := clear_lastSeen_lt rc.reader ev hwf hck
    have hclear : rc.clear w = RemovedComponents.mk rc.componentId (rc.reader.clear ev) := by
      simp [RemovedComponents.clear, hev]
    have hget : (w.send rc.componentId e).get rc.componentId = some (ev.write e) := by
      rw [wget_send_eq]
      rw [show w.get rc.componentId = some ev from hev]
    refine ⟨?_, ?_, ?_⟩
    · rw [hclear, RemovedComponents.read]
      rw [show (RemovedComponents.mk rc.componentId (rc.reader.clear ev)).events w = some ev
        from hev]
      simp only [readAll_eq _ _ hwf]
      rw [unread_after_clear rc.reader ev hwf]
      simp
    · rw [hclear, RemovedComponents.read]
      rw [show (RemovedComponents.mk rc.componentId (rc.reader.clear ev)).events
            (w.send rc.componentId e) = some (ev.write e) from hget]
      have hwfw : EventsWF (ev.write e) := eventsWF_write _ _ hwf
      simp only [readAll_eq _ _ hwfw]
      rw [show (rc.reader.clear ev).unread (ev.write e) =
            (rc.reader.clear ev).unread ev ++ [RemovalEntry.mk ev.eventCount e]
        from unread_write _ _ _ hck']
      rw [unread_after_clear rc.reader ev hwf]
      simp
    · rw [RemovedComponents.read]
      rw [show (RemovedComponents.fresh rc.componentId).events w = some ev from hev]
      simp only [readAll_eq _ _ hwf]
      rw [show (RemovedComponents.fresh rc.componentId).reader = EventCursor.fresh from rfl]
      rw [unread_fresh]
      simp [feedEntities, show w.get rc.componentId = some ev from hev]

theorem clear_cursor_independence_witness :
    (((RemovedComponents.mk 0 (EventCursor.mk (some 0))).clear
        (RemovedComponentEvents.new.send 0 3)).read (RemovedComponentEvents.new.send 0 3)).1
      = [] ∧
    (((RemovedComponents.mk 0 (EventCursor.mk (some 0))).clear
        (RemovedComponentEvents.new.send 0 3)).read
          ((RemovedComponentEvents.new.send 0 3).send 0 9)).1 = [9] ∧
    ((RemovedComponents.fresh 0).read (RemovedComponentEvents.new.send 0 3)).1 =
      feedEntities (RemovedComponentEvents.new.send 0 3) 0 :=
  clear_cursor_independence (RemovedComponents.mk 0 (EventCursor.mk (some 0)))
    (RemovedComponentEvents.new.send 0 3) 9 (by decide) (by decide)

theorem wget_send_isSome (w : RemovedComponentEvents) (cid : ComponentId) (e : Entity)
    (k : ComponentId) :
    ((w.send cid e).get k).isSome = ((w.get k).isSome || k == cid) := by
  by_cases hk : k = cid
  · subst hk
    rw [wget_send_eq]
    simp
  · rw [show (w.send cid e).get k = w.get k from get_send_ne _ _ _ _ hk]
    have hb : (k == cid) = false := by simpa using hk
    rw [hb, Bool.or_false]

theorem applyOps_get_isSome :
    ∀ (ops : List Op) (w : RemovedComponentEvents) (k : ComponentId),
    ((applyOps w ops).get k).isSome = ((w.get k).isSome || ops.any (opSendsTo k)) := by
  intro ops
  induction ops with
  | nil =>
    intro w k
    simp [applyOps]
  | cons op rest ih =>
    intro w k
    rw [show applyOps w (op :: rest) = applyOps (applyOp w op) rest from rfl, ih]
    cases op with
    | update =>
      rw [show applyOp w Op.update = w.update from rfl, wget_update]
      simp [opSendsTo]
    | send cid e =>
      rw [show applyOp w (Op.send cid e) = w.send cid e from rfl, wget_send_isSome]
      simp [opSendsTo, Bool.or_assoc]

/-- Claim C9: the registry's key set only grows.  A send makes the key
present (creating an empty feed exactly when absent) and preserves every
other key's presence; an update preserves presence of every key; and over
any operation sequence from the empty registry, a key is present exactly
when some send has targeted it — so `get` is absent only if `send` was never
called for that id. -/
theorem registry_keys_grow :
    (∀ (w : RemovedComponentEvents) (cid : ComponentId) (e : Entity) (k : ComponentId),
      ((w.send cid e).get k).isSome = ((w.get k).isSome || k == cid)) ∧
    (∀ (w : RemovedComponentEvents) (k : ComponentId),
      ((w.update).get k).isSome = (w.get k).isSome) ∧
    (∀ (ops : List Op) (k : ComponentId),
      ((applyOps RemovedComponentEvents.new ops).get k).isSome = true ↔
        ∃ e, Op.send k e ∈ ops) := by
  refine ⟨wget_send_isSome, ?_, ?_⟩
  · intro w k
    rw [wget_update]
    simp
  · intro ops k
    rw [applyOps_get_isSome]
    rw [show (RemovedComponentEvents.new.get k).isSome = false from rfl, Bool.false_or]
    rw [List.any_eq_true]
    constructor
    · rintro ⟨op, hop, hsend⟩
      cases op with
      | update => simp [opSendsTo] at hsend
      | send cid e =>
        have hkc : k = cid := by simpa [opSendsTo] using hsend
        refine ⟨e, ?_⟩
        rw [hkc]
        exact hop
    · rintro ⟨e, he⟩
      exact ⟨Op.send k e, he, by simp [opSendsTo]⟩
